import Mathlib

/-!
Verification of the frame-processing pipeline of the ascii-video-player
repository.  The definitions below are a shallow embedding of
`src/video-processor.js` (class `VideoProcessor`) and `src/ascii-renderer.js`
(class `ASCIIRenderer`): JavaScript numbers are modeled as `ℚ` (exact
rationals), machine integers and array indices as `Nat`/`Int`, fallible
asynchronous operations as `Except`-valued outcomes, and the mutable fields
threaded through the methods as explicit state arguments and results.
-/

namespace AsciiVideo

/-! ## Quality Controller — `VideoProcessor.adaptQuality` -/

/-- The settings fields read and written by `adaptQuality` (`asciiWidth` /
`asciiHeight`, in characters).  The remaining fields of the JS settings object
are copied unchanged by the spread `{...settings}` and are omitted here. -/
structure QSettings where
  asciiWidth : Nat
  asciiHeight : Nat
deriving DecidableEq

/-- `performanceMonitor.maxSamples` from the `VideoProcessor` constructor. -/
def maxSamples : Nat := 10

/-- `performanceMonitor.targetFrameTime` from the constructor: 33 ms (30 FPS). -/
def targetFrameTime : ℚ := 33

/-- `VideoProcessor.adaptQuality(frameTime, settings)`.

The first component of the result is the updated
`performanceMonitor.frameTimes` window (pushed, then `shift()`ed once when the
length exceeds `maxSamples`); the second is the adapted copy of the settings.
`Math.floor(w * 0.8)` is `w * 8 / 10` and `Math.floor(w * 1.1)` is
`w * 11 / 10` in exact arithmetic (`Nat` division floors). -/
def adaptQuality (frameTimes : List ℚ) (frameTime : ℚ) (settings : QSettings) :
    List ℚ × QSettings :=
  let times0 := frameTimes ++ [frameTime]
  let times := if maxSamples < times0.length then times0.drop 1 else times0
  let avgFrameTime := times.sum / (times.length : ℚ)
  let adapted :=
    if targetFrameTime * (3 / 2) < avgFrameTime then
      { asciiWidth := max 60 (settings.asciiWidth * 8 / 10),
        asciiHeight := max 20 (settings.asciiHeight * 8 / 10) }
    else if avgFrameTime < targetFrameTime * (1 / 2) then
      { asciiWidth := min 200 (settings.asciiWidth * 11 / 10),
        asciiHeight := min 80 (settings.asciiHeight * 11 / 10) }
    else settings
  (times, adapted)

/-- Repeated `adaptQuality(t, settings)` calls as the realtime render loop makes
them: the latency window threads through `performanceMonitor.frameTimes`, while
the same `this.settings` object is passed on every call (the renderer never
assigns the adapted copy back). -/
def feedLatencies (samples : List ℚ) (frameTimes : List ℚ) (settings : QSettings) :
    List ℚ × QSettings :=
  samples.foldl (fun acc t => adaptQuality acc.1 t settings) (frameTimes, settings)

/-! ## Frame Cache — the cache discipline of `VideoProcessor.extractFrame` -/

/-- `this.cacheSize` from the `VideoProcessor` constructor. -/
def cacheSize : Nat := 10

/-- The cache discipline of `extractFrame(time, width, height)`.

The JS `Map` is modeled as an association list in insertion order (a `Map`'s
keys are unique, so deleting `keys().next().value` — the first-inserted key —
drops the first entry).  `extract` is the outcome of the awaited
`extractFrameWithRetry` call.  On a hit the map is returned untouched (a `get`
does not reorder a JS `Map`); on a miss with the cache at capacity the oldest
entry is deleted before extraction, and the new entry is appended only when
extraction succeeds. -/
def extractFrameCache {V E : Type} (capacity : Nat) (cache : List (String × V))
    (key : String) (extract : Except E V) : List (String × V) × Except E V :=
  match cache.find? (fun kv => kv.1 == key) with
  | some kv => (cache, .ok kv.2)
  | none =>
    let cache1 := if capacity ≤ cache.length then cache.drop 1 else cache
    match extract with
    | .ok v => (cache1 ++ [(key, v)], .ok v)
    | .error e => (cache1, .error e)

/-! ## Frame Sampler — `extractFrameInternal` and `extractFrameWithRetry` -/

/-- The distinct failure sites of the sampler, one constructor per `throw`:
`videoNotLoaded` for the null / `readyState < 1` checks, `notEnoughData` for an
exhausted readiness wait, `invalidTime` for the out-of-range timestamp check,
`frameTimeout` for the adaptive deadline, `seekFailed` for the media error
handler, and `retriesExhausted last attempts` for the final throw of the retry
wrapper (whose message is annotated with the attempt count). -/
inductive ExtractError where
  | videoNotLoaded : ExtractError
  | notEnoughData : ExtractError
  | invalidTime : ExtractError
  | frameTimeout : ExtractError
  | seekFailed : ExtractError
  | retriesExhausted : ExtractError → Nat → ExtractError
deriving DecidableEq

/-- The video-element state observed by one `extractFrameInternal` call:
whether `this.video` is non-null, the `readyState` as seen after the bounded
readiness waits have elapsed, and `this.duration`. -/
structure VideoState where
  loaded : Bool
  readyState : Nat
  duration : ℚ

/-- The error ladder of `extractFrameInternal(time, width, height)`:
no video → throw; `readyState < 1` → throw; `readyState < 2` after the backoff
wait → throw; `time < 0 || time > this.duration` → throw the invalid-time
error; otherwise the result is that of the seek/draw/read-back promise
(`seek`), which itself resolves with pixels or rejects with
`frameTimeout`/`seekFailed`.  The `readyState < 4` branch only waits and never
throws. -/
def extractFrameInternal {A : Type} (vs : VideoState) (time : ℚ)
    (seek : Except ExtractError A) : Except ExtractError A :=
  if vs.loaded = false then .error .videoNotLoaded
  else if vs.readyState < 1 then .error .videoNotLoaded
  else if vs.readyState < 2 then .error .notEnoughData
  else if time < 0 ∨ vs.duration < time then .error .invalidTime
  else seek

/-- `const actualMaxRetries = isMobile ? Math.max(maxRetries, 5) : maxRetries`. -/
def actualMaxRetries (maxRetries : Nat) (isMobile : Bool) : Nat :=
  if isMobile then max maxRetries 5 else maxRetries

/-- The `for (attempt = 1; attempt <= actualMaxRetries; attempt++)` loop of
`extractFrameWithRetry`, unrolled from a given attempt with `n` attempts still
allowed (`n = actualMax - attempt + 1` at every reachable call).
`outcome k` is the result of the `k`-th `extractFrameInternal` call and
`videoPresent k` whether `this.video` is still non-null when the `k`-th catch
block inspects it (`break` on loss).  The second component is the number of the
last attempt actually made.  The `0` case is unreachable for `actualMax ≥ 1`
starting from attempt 1. -/
def retryAttempts {A : Type} (outcome : Nat → Except ExtractError A)
    (videoPresent : Nat → Bool) (actualMax : Nat) (lastError : ExtractError) :
    Nat → Nat → Except ExtractError A × Nat
  | 0, attempt => (.error (.retriesExhausted lastError actualMax), attempt - 1)
  | n + 1, attempt =>
    match outcome attempt with
    | .ok a => (.ok a, attempt)
    | .error e =>
      if attempt < actualMax ∧ videoPresent attempt = true then
        retryAttempts outcome videoPresent actualMax e n (attempt + 1)
      else
        (.error (.retriesExhausted e actualMax), attempt)

/-- `extractFrameWithRetry(time, width, height, maxRetries, isMobile)`:
runs the attempt loop from attempt 1; exhausting the attempts (or breaking on a
lost video element) surfaces the last error annotated with the configured
attempt count. -/
def extractFrameWithRetry {A : Type} (outcome : Nat → Except ExtractError A)
    (videoPresent : Nat → Bool) (maxRetries : Nat) (isMobile : Bool) :
    Except ExtractError A × Nat :=
  retryAttempts outcome videoPresent (actualMaxRetries maxRetries isMobile)
    .videoNotLoaded (actualMaxRetries maxRetries isMobile) 1

/-- The adaptive deadline computed inside `extractFrameInternal` (ms):
`min(30000, 10000 + (videoWidth*videoHeight / 1000000) * 5000)`, and for mobile
devices `min(45000, that * 1.5)`. -/
def adaptiveTimeout (videoWidth videoHeight : Nat) (isMobile : Bool) : ℚ :=
  let baseTimeout : ℚ := 10000
  let videoComplexity : ℚ := (videoWidth : ℚ) * (videoHeight : ℚ)
  let t := min 30000 (baseTimeout + videoComplexity / 1000000 * 5000)
  if isMobile then min 45000 (t * (3 / 2)) else t

/-- The specification's timeout formula, stated in seconds, written from the
spec's words for comparison with `adaptiveTimeout`: "base 10s, plus up to 5s
scaled by source resolution (width×height / 1,000,000), capped at 30s;
multiplied by 1.5 and capped at 45s for constrained devices". -/
def specTimeoutFormula (videoWidth videoHeight : Nat) (isMobile : Bool) : ℚ :=
  let base := min 30 (10 + 5 * (((videoWidth : ℚ) * (videoHeight : ℚ)) / 1000000))
  if isMobile then min 45 (base * (3 / 2)) else base

/-! ## ASCII Converter — `VideoProcessor.convertToASCII` -/

/-- A decoded pixel buffer (`ImageData`): `data i` is the `i`-th byte of the
RGBA array.  Modeling the `Uint8ClampedArray` as a total function lets the
in-bounds property be stated precisely: the converter's output depends only on
the first `4 * width * height` bytes (see the totality theorem). -/
structure ImageData where
  width : Nat
  height : Nat
  data : Nat → Nat

/-- The settings fields read by `convertToASCII`. -/
structure ConvSettings where
  asciiWidth : Nat
  asciiHeight : Nat
deriving DecidableEq

/-- `const asciiChars = " .:-=+*#%@"` — 10 glyphs ordered dark→light. -/
def asciiChars : List Char := (" .:-=+*#%@").toList

/-- `Math.min(charCount - 1, Math.floor(gray * (charCount - 1) / 255))` with
`charCount = 10`; `Math.floor` on the exact quotient is flooring division
(`Int.fdiv`). -/
def charIndex (gray : ℤ) : ℤ := min 9 (Int.fdiv (gray * 9) 255)

/-- `asciiChars[charIndex]`; for every gray value the converter produces the
index lies in `[0, 9]`, so the default is never used. -/
def glyphAt (i : ℤ) : Char := asciiChars.getD i.toNat ' '

/-- The per-block averaging of `convertToASCII`: sum each channel over the
`stepX × stepY` block whose top-left pixel is `(x, y)` (byte index
`(y+dy)*width*4 + (x+dx)*4` plus the channel offset), count the pixels, then
`gray = Math.round((rSum*0.299 + gSum*0.587 + bSum*0.114) / count)` in exact
rational arithmetic (`count` is incremented once per pixel, hence equals
`stepY * stepX`). -/
def blockGray (d : Nat → Nat) (width x y stepX stepY : Nat) : ℤ :=
  let rSum : Nat := ∑ dy ∈ Finset.range stepY, ∑ dx ∈ Finset.range stepX,
    d ((y + dy) * (width * 4) + (x + dx) * 4)
  let gSum : Nat := ∑ dy ∈ Finset.range stepY, ∑ dx ∈ Finset.range stepX,
    d ((y + dy) * (width * 4) + (x + dx) * 4 + 1)
  let bSum : Nat := ∑ dy ∈ Finset.range stepY, ∑ dx ∈ Finset.range stepX,
    d ((y + dy) * (width * 4) + (x + dx) * 4 + 2)
  let count : Nat := stepY * stepX
  round (((rSum : ℚ) * (299 / 1000) + (gSum : ℚ) * (587 / 1000)
    + (bSum : ℚ) * (114 / 1000)) / (count : ℚ))

/-- The scan loops `for (let v = 0; v <= bound - step; v += step)` of
`convertToASCII` (`maxX = width - stepX`, `maxY = height - stepY`, in signed JS
arithmetic, so the guard is `v + step ≤ bound`).  `fuel` only bounds the
recursion depth; `bound + 1` steps always suffice because every iteration
advances `v` by `step ≥ 1`. -/
def scanStartsAux (step bound : Nat) : Nat → Nat → List Nat
  | 0, _ => []
  | fuel + 1, v =>
    if v + step ≤ bound then v :: scanStartsAux step bound fuel (v + step) else []

/-- The list of visited loop indices, starting at 0. -/
def scanStarts (step bound : Nat) : List Nat := scanStartsAux step bound (bound + 1) 0

/-- The `lines` array built by `convertToASCII(imageData, settings)`: one entry
per y-loop iteration, each the list of glyphs appended by the x loop.
`stepX = Math.max(1, Math.floor(width / asciiWidth))` and similarly `stepY`.
When `asciiWidth` is 0, JS computes `stepX = Math.max(1, Infinity) = Infinity`
and `maxX = -Infinity`, so the x loop runs zero times — hence the explicit
empty list in that case (and symmetrically for `asciiHeight`/the y loop). -/
def asciiLines (img : ImageData) (s : ConvSettings) : List (List Char) :=
  let stepX := max 1 (img.width / s.asciiWidth)
  let stepY := max 1 (img.height / s.asciiHeight)
  let xs := if s.asciiWidth = 0 then [] else scanStarts stepX img.width
  let ys := if s.asciiHeight = 0 then [] else scanStarts stepY img.height
  ys.map (fun y => xs.map (fun x =>
    glyphAt (charIndex (blockGray img.data img.width x y stepX stepY))))

/-- `convertToASCII` proper: `lines.join('\n')`. -/
def convertToASCII (img : ImageData) (s : ConvSettings) : String :=
  String.intercalate "\n" ((asciiLines img s).map (fun l => String.mk l))

/-! ## Playback Driver — `ASCIIRenderer.render` / `getPlaybackInfo`
(precomputed mode) -/

/-- The renderer fields `render()` reads and writes in precomputed mode. -/
structure RendState where
  currentFrame : ℤ
  startTime : ℚ
deriving DecidableEq

/-- The object literal returned by `getPlaybackInfo()` (precomputed branch). -/
structure PlaybackInfo where
  currentFrame : ℤ
  totalFrames : Nat
  currentTime : ℚ
  totalTime : ℚ
  progress : ℚ
  isPlaying : Bool
  fps : ℚ
deriving DecidableEq

/-- One pass of `ASCIIRenderer.render()` while playing in precomputed mode,
taken at wall-clock time `now` (`performance.now()`, ms):
`expectedFrame = Math.floor(elapsed / frameDelay)` with
`frameDelay = 1000 / fps`; reaching `expectedFrame >= frames.length` resets
`currentFrame` to 0, re-bases `startTime`, and calls `playAudio()` (the second
component records whether the audio track was restarted). -/
def renderStep (frames : List String) (fps : ℚ) (s : RendState) (now : ℚ) :
    RendState × Bool :=
  let frameDelay := 1000 / fps
  let elapsed := now - s.startTime
  let expectedFrame : ℤ := ⌊elapsed / frameDelay⌋
  if (frames.length : ℤ) ≤ expectedFrame then
    ({ currentFrame := 0, startTime := now }, true)
  else
    ({ s with currentFrame := expectedFrame }, false)

/-- `ASCIIRenderer.getPlaybackInfo()`, precomputed (non-realtime) branch. -/
def getPlaybackInfo (frames : List String) (fps : ℚ) (s : RendState)
    (isPlaying : Bool) : PlaybackInfo :=
  let frameDelay := 1000 / fps
  { currentFrame := s.currentFrame
    totalFrames := frames.length
    currentTime := (s.currentFrame : ℚ) * frameDelay / 1000
    totalTime := (frames.length : ℚ) * frameDelay / 1000
    progress := if 0 < frames.length then (s.currentFrame : ℚ) / (frames.length : ℚ) else 0
    isPlaying := isPlaying
    fps := fps }

/-! ## Library of supporting lemmas -/

/-- The scan loop visits `(bound - v) / step` further indices when the fuel is
sufficient (each iteration advances by `step ≥ 1`). -/
theorem scanStartsAux_length (step bound : Nat) (hs : 0 < step) :
    ∀ fuel v, bound + 1 ≤ fuel + v →
      (scanStartsAux step bound fuel v).length = (bound - v) / step := by
  intro fuel
  induction fuel with
  | zero =>
    intro v hv
    have : bound - v = 0 := by omega
    simp [scanStartsAux, this, Nat.zero_div]
  | succ n ih =>
    intro v hv
    rw [scanStartsAux]
    by_cases h : v + step ≤ bound
    · rw [if_pos h]
      simp only [List.length_cons, ih (v + step) (by omega)]
      have h1 : bound - v = (bound - (v + step)) + step := by omega
      rw [h1, Nat.add_div_right _ hs]
    · rw [if_neg h]
      have : bound - v < step := by omega
      simp [Nat.div_eq_of_lt this]

/-- A converter scan loop with step `s ≥ 1` over extent `bound` makes exactly
`bound / s` iterations. -/
theorem scanStarts_length (step bound : Nat) (hs : 0 < step) :
    (scanStarts step bound).length = bound / step := by
  simpa using scanStartsAux_length step bound hs (bound + 1) 0 (by omega)

/-- Every visited index leaves a full block of `step` elements before `bound`. -/
theorem scanStartsAux_mem (step bound : Nat) :
    ∀ fuel v z, z ∈ scanStartsAux step bound fuel v → z + step ≤ bound := by
  intro fuel
  induction fuel with
  | zero => intro v z hz; simp [scanStartsAux] at hz
  | succ n ih =>
    intro v z hz
    rw [scanStartsAux] at hz
    by_cases h : v + step ≤ bound
    · rw [if_pos h] at hz
      rcases List.mem_cons.1 hz with rfl | hz'
      · exact h
      · exact ih _ _ hz'
    · rw [if_neg h] at hz; simp at hz

/-- Specialization of `scanStartsAux_mem` to the loop entry point. -/
theorem scanStarts_mem (step bound z : Nat) (hz : z ∈ scanStarts step bound) :
    z + step ≤ bound :=
  scanStartsAux_mem step bound _ 0 z hz

/-- A scan over extent 0 makes no iterations. -/
theorem scanStarts_bound_zero (step : Nat) (hs : 0 < step) : scanStarts step 0 = [] := by
  simp only [scanStarts, scanStartsAux]
  rw [if_neg (by omega)]

/-- When the requested count divides the extent, the loop makes at most that
many iterations (exactly that many on a nonzero extent). -/
theorem div_max_one_div_le (h ah : Nat) (hh : 0 < ah) (hd : ah ∣ h) :
    h / max 1 (h / ah) ≤ ah := by
  obtain ⟨k, rfl⟩ := hd
  rcases Nat.eq_zero_or_pos k with rfl | hk
  · simp
  · have h1 : ah * k / ah = k := Nat.mul_div_cancel_left k hh
    rw [h1, Nat.max_eq_right hk, Nat.mul_div_cancel _ hk]

/-- The block average reads only bytes of pixels inside the block, all of which
lie below `4 * width * height` when the block fits inside the buffer. -/
theorem blockGray_congr (d1 d2 : Nat → Nat) (width height x y stepX stepY : Nat)
    (hagree : ∀ i, i < 4 * width * height → d1 i = d2 i)
    (hx : x + stepX ≤ width) (hy : y + stepY ≤ height) :
    blockGray d1 width x y stepX stepY = blockGray d2 width x y stepX stepY := by
  have hidx : ∀ dy dx c, dy < stepY → dx < stepX → c < 4 →
      (y + dy) * (width * 4) + (x + dx) * 4 + c < 4 * width * height := by
    intro dy dx c hdy hdx hc
    have h2 : y + dy + 1 ≤ height := by omega
    have h1 : (x + dx) * 4 + 4 ≤ width * 4 := by
      have hxx : x + dx + 1 ≤ width := by omega
      calc (x + dx) * 4 + 4 = (x + dx + 1) * 4 := by ring
        _ ≤ width * 4 := Nat.mul_le_mul_right 4 hxx
    have key : (y + dy) * (width * 4) + width * 4 ≤ 4 * width * height := by
      calc (y + dy) * (width * 4) + width * 4 = (y + dy + 1) * (width * 4) := by ring
        _ ≤ height * (width * 4) := Nat.mul_le_mul_right _ h2
        _ = 4 * width * height := by ring
    omega
  have hr : (∑ dy ∈ Finset.range stepY, ∑ dx ∈ Finset.range stepX,
      d1 ((y + dy) * (width * 4) + (x + dx) * 4)) = ∑ dy ∈ Finset.range stepY,
      ∑ dx ∈ Finset.range stepX, d2 ((y + dy) * (width * 4) + (x + dx) * 4) := by
    refine Finset.sum_congr rfl fun dy hdy => Finset.sum_congr rfl fun dx hdx => ?_
    have := hidx dy dx 0 (Finset.mem_range.1 hdy) (Finset.mem_range.1 hdx) (by omega)
    exact hagree _ (by omega)
  have hg : (∑ dy ∈ Finset.range stepY, ∑ dx ∈ Finset.range stepX,
      d1 ((y + dy) * (width * 4) + (x + dx) * 4 + 1)) = ∑ dy ∈ Finset.range stepY,
      ∑ dx ∈ Finset.range stepX, d2 ((y + dy) * (width * 4) + (x + dx) * 4 + 1) := by
    refine Finset.sum_congr rfl fun dy hdy => Finset.sum_congr rfl fun dx hdx => ?_
    exact hagree _ (hidx dy dx 1 (Finset.mem_range.1 hdy) (Finset.mem_range.1 hdx) (by omega))
  have hb : (∑ dy ∈ Finset.range stepY, ∑ dx ∈ Finset.range stepX,
      d1 ((y + dy) * (width * 4) + (x + dx) * 4 + 2)) = ∑ dy ∈ Finset.range stepY,
      ∑ dx ∈ Finset.range stepX, d2 ((y + dy) * (width * 4) + (x + dx) * 4 + 2) := by
    refine Finset.sum_congr rfl fun dy hdy => Finset.sum_congr rfl fun dx hdx => ?_
    exact hagree _ (hidx dy dx 2 (Finset.mem_range.1 hdy) (Finset.mem_range.1 hdx) (by omega))
  simp only [blockGray, hr, hg, hb]

/-- The whole character grid depends only on the `4 * width * height` bytes of
the pixel buffer: every `data` read of `convertToASCII` is in bounds. -/
theorem asciiLines_congr (w ht : Nat) (d1 d2 : Nat → Nat) (s : ConvSettings)
    (hagree : ∀ i, i < 4 * w * ht → d1 i = d2 i) :
    asciiLines ⟨w, ht, d1⟩ s = asciiLines ⟨w, ht, d2⟩ s := by
  simp only [asciiLines]
  apply List.map_congr_left
  intro y hy
  apply List.map_congr_left
  intro x hx
  have hys : y + max 1 (ht / s.asciiHeight) ≤ ht := by
    rcases eq_or_ne s.asciiHeight 0 with h | h
    · rw [if_pos h] at hy; simp at hy
    · rw [if_neg h] at hy
      exact scanStarts_mem _ _ _ hy
  have hxs : x + max 1 (w / s.asciiWidth) ≤ w := by
    rcases eq_or_ne s.asciiWidth 0 with h | h
    · rw [if_pos h] at hx; simp at hx
    · rw [if_neg h] at hx
      exact scanStarts_mem _ _ _ hx
  rw [blockGray_congr d1 d2 w ht x y _ _ hagree hxs hys]

/-- A cache hit returns the map untouched (no positional refresh). -/
theorem cache_hit_unchanged {V E : Type} (c : Nat) (cache : List (String × V))
    (key : String) (r : Except E V) (hmem : key ∈ cache.map Prod.fst) :
    (extractFrameCache c cache key r).1 = cache := by
  unfold extractFrameCache
  obtain ⟨⟨k, v⟩, hkv, hk⟩ := List.mem_map.1 hmem
  have : cache.find? (fun kv => kv.1 == key) ≠ none := by
    intro hnone
    have := List.find?_eq_none.1 hnone ⟨k, v⟩ hkv
    simp at this
    exact this hk
  cases hfind : cache.find? (fun kv => kv.1 == key) with
  | none => exact absurd hfind this
  | some kv => simp

/-- One `extractFrame` call keeps the cache within capacity. -/
theorem cache_step_length {V E : Type} (c : Nat) (hc : 0 < c) (cache : List (String × V))
    (key : String) (r : Except E V) (hlen : cache.length ≤ c) :
    (extractFrameCache c cache key r).1.length ≤ c := by
  unfold extractFrameCache
  cases hfind : cache.find? (fun kv => kv.1 == key) with
  | some kv => simpa using hlen
  | none =>
    cases r with
    | ok v =>
      by_cases h : c ≤ cache.length
      · simp only [if_pos h, List.length_append, List.length_drop, List.length_cons,
          List.length_nil]
        omega
      · simp only [if_neg h, List.length_append, List.length_cons, List.length_nil]
        omega
    | error e =>
      by_cases h : c ≤ cache.length
      · simp only [if_pos h, List.length_drop]
        omega
      · simp only [if_neg h]
        exact hlen

/-- Any sequence of `extractFrame` calls starting from the empty cache keeps
the cache within capacity. -/
theorem cache_fold_length {V E : Type} (c : Nat) (hc : 0 < c)
    (ops : List (String × Except E V)) :
    (ops.foldl (fun cache op => (extractFrameCache c cache op.1 op.2).1) []).length ≤ c := by
  suffices h : ∀ (start : List (String × V)), start.length ≤ c →
      (ops.foldl (fun cache op => (extractFrameCache c cache op.1 op.2).1) start).length ≤ c by
    exact h [] (by simp)
  induction ops with
  | nil => intro s hs; simpa using hs
  | cons op rest ih =>
    intro s hs
    exact ih _ (cache_step_length c hc s op.1 op.2 hs)

/-- Successful misses on fresh distinct keys below capacity append in order. -/
theorem cache_fill {V : Type} (c : Nat) (v : String → V) :
    ∀ (ks : List String) (cache : List (String × V)), ks.Nodup →
      (∀ k ∈ ks, k ∉ cache.map Prod.fst) → cache.length + ks.length ≤ c →
      (ks.foldl (fun cc k => (extractFrameCache (E := Unit) c cc k (.ok (v k))).1) cache)
        = cache ++ ks.map (fun k => (k, v k)) := by
  intro ks
  induction ks with
  | nil => intro cache _ _ _; simp
  | cons k rest ih =>
    intro cache hnd hfresh hlen
    have hmiss : cache.find? (fun kv => kv.1 == k) = none := by
      rw [List.find?_eq_none]
      intro kv hkv
      simp only [beq_iff_eq]
      intro hk
      exact hfresh k (by simp) (List.mem_map.2 ⟨kv, hkv, hk⟩)
    have hstep : (extractFrameCache (E := Unit) c cache k (.ok (v k))).1
        = cache ++ [(k, v k)] := by
      unfold extractFrameCache
      rw [hmiss]
      simp only [List.length_cons] at hlen
      rw [if_neg (by omega)]
    rw [List.foldl_cons, hstep, ih (cache ++ [(k, v k)])
      (List.nodup_cons.1 hnd).2
      (by
        intro k' hk' hmem
        simp only [List.map_append, List.mem_append, List.map_cons, List.map_nil,
          List.mem_cons, List.mem_singleton] at hmem
        rcases hmem with h | h
        · exact hfresh k' (by simp [hk']) h
        · simp at h
          rcases h with rfl
          exact (List.nodup_cons.1 hnd).1 hk')
      (by simp at hlen ⊢; omega)]
    simp

/-- Inserting `c + 1` distinct keys into an empty cache of capacity `c` keeps
the last `c` of them, in insertion order; the first key is evicted. -/
theorem cache_fifo_scenario {V : Type} (c : Nat) (hc : 0 < c) (v : String → V)
    (ks : List String) (hnd : ks.Nodup) (hlen : ks.length = c + 1) :
    (ks.foldl (fun cc k => (extractFrameCache (E := Unit) c cc k (.ok (v k))).1) [])
      = (ks.drop 1).map (fun k => (k, v k)) := by
  have hne : ks ≠ [] := by intro h; rw [h] at hlen; simp at hlen
  obtain ⟨front, last, rfl⟩ : ∃ front last, ks = front ++ [last] :=
    ⟨ks.dropLast, ks.getLast hne, (List.dropLast_append_getLast hne).symm⟩
  have hfl : front.length = c := by simpa using hlen
  have hndf : front.Nodup := (List.nodup_append.1 hnd).1
  have hfront : (front.foldl (fun cc k =>
      (extractFrameCache (E := Unit) c cc k (.ok (v k))).1) [])
      = front.map (fun k => (k, v k)) := by
    simpa using cache_fill c v front [] hndf (by simp) (by simp [hfl])
  rw [List.foldl_append, hfront]
  have hlast_fresh : last ∉ front := by
    have := List.nodup_append.1 hnd
    intro hmem
    exact this.2.2 hmem (by simp)
  have hmiss : (front.map (fun k => (k, v k))).find? (fun kv => kv.1 == last) = none := by
    rw [List.find?_eq_none]
    intro kv hkv
    simp only [List.mem_map] at hkv
    obtain ⟨k, hk, rfl⟩ := hkv
    simp only [beq_iff_eq]
    intro h
    exact hlast_fresh (h ▸ hk)
  simp only [List.foldl_cons, List.foldl_nil]
  unfold extractFrameCache
  rw [hmiss]
  rw [if_pos (by simp [hfl])]
  cases front with
  | nil => simp at hfl; omega
  | cons k0 rest => simp

/-- When every attempt fails (and the video element survives), the attempt
loop runs to its configured maximum and surfaces the last error annotated with
that attempt count. -/
theorem retryAttempts_const_error {A : Type} (e0 : ExtractError) (actualMax : Nat) :
    ∀ n attempt (last : ExtractError), attempt + n = actualMax + 1 → 1 ≤ n →
      retryAttempts (A := A) (fun _ => .error e0) (fun _ => true) actualMax last n attempt
        = (.error (.retriesExhausted e0 actualMax), actualMax) := by
  intro n
  induction n with
  | zero => intro attempt last h h1; omega
  | succ m ih =>
    intro attempt last h h1
    simp only [retryAttempts]
    rcases Nat.eq_zero_or_pos m with rfl | hm
    · rw [if_neg (show ¬(attempt < actualMax ∧ True) from
        fun hcon => absurd hcon.1 (by omega))]
      have : attempt = actualMax := by omega
      rw [this]
    · rw [if_pos (show attempt < actualMax ∧ True from ⟨by omega, trivial⟩)]
      exact ih (attempt + 1) e0 (by omega) (by omega)

/-! ## Claim theorems -/

/-- C1 (counterexample).  The converter's grid CAN be larger than the requested
`outW × outH`: for a 5×1 pixel buffer and requested output 3×1, the step is
`max(1, ⌊5/3⌋) = 1` and the x loop emits 5 characters, so the single line has
length 5, which exceeds the requested width 3. -/
theorem ascii_grid_exceeds_request :
    asciiLines ⟨5, 1, fun _ => 0⟩ ⟨3, 1⟩ = [[' ', ' ', ' ', ' ', ' ']] ∧
      ¬((5 : Nat) ≤ 3) := by
  constructor
  · simp [asciiLines, scanStarts, scanStartsAux, blockGray, charIndex, glyphAt, asciiChars]
  · omega

/-- C1 (amended).  `convertToASCII` drops trailing partial blocks: for positive
requested dimensions the frame has exactly `srcH / stepY` lines, each of
length exactly `srcW / stepX`, with `stepX = max(1, ⌊srcW/outW⌋)` and
`stepY = max(1, ⌊srcH/outH⌋)`.  These counts are bounded by `outH` and `outW`
whenever the requested dimension divides the source dimension, but can strictly
exceed them otherwise (see the counterexample). -/
theorem ascii_grid_dims (img : ImageData) (s : ConvSettings)
    (hw : 0 < s.asciiWidth) (hh : 0 < s.asciiHeight) :
    (asciiLines img s).length = img.height / max 1 (img.height / s.asciiHeight) ∧
    (∀ l ∈ asciiLines img s, l.length = img.width / max 1 (img.width / s.asciiWidth)) ∧
    (s.asciiHeight ∣ img.height → (asciiLines img s).length ≤ s.asciiHeight) ∧
    (s.asciiWidth ∣ img.width → ∀ l ∈ asciiLines img s, l.length ≤ s.asciiWidth) := by
  have hlines : (asciiLines img s).length
      = img.height / max 1 (img.height / s.asciiHeight) := by
    simp only [asciiLines, List.length_map, if_neg (by omega : ¬ s.asciiHeight = 0)]
    exact scanStarts_length _ _ (by omega)
  have hline : ∀ l ∈ asciiLines img s,
      l.length = img.width / max 1 (img.width / s.asciiWidth) := by
    intro l hl
    simp only [asciiLines, List.mem_map] at hl
    obtain ⟨y, hy, rfl⟩ := hl
    simp only [List.length_map, if_neg (by omega : ¬ s.asciiWidth = 0)]
    exact scanStarts_length _ _ (by omega)
  refine ⟨hlines, hline, ?_, ?_⟩
  · intro hd
    rw [hlines]
    exact div_max_one_div_le _ _ hh hd
  · intro hd l hl
    rw [hline l hl]
    exact div_max_one_div_le _ _ hw hd

/-- C1 (witness for the amended theorem): a 6×4 buffer at requested 3×2 gives a
grid of exactly 2 lines of 3 characters, within the requested bounds. -/
theorem ascii_grid_dims_witness :
    (asciiLines ⟨6, 4, fun _ => 0⟩ ⟨3, 2⟩).length = 4 / max 1 (4 / 2) ∧
    (∀ l ∈ asciiLines ⟨6, 4, fun _ => 0⟩ ⟨3, 2⟩, l.length = 6 / max 1 (6 / 3)) ∧
    ((2 : Nat) ∣ 4 → (asciiLines ⟨6, 4, fun _ => 0⟩ ⟨3, 2⟩).length ≤ 2) ∧
    ((3 : Nat) ∣ 6 → ∀ l ∈ asciiLines ⟨6, 4, fun _ => 0⟩ ⟨3, 2⟩, l.length ≤ 3) :=
  ascii_grid_dims ⟨6, 4, fun _ => 0⟩ ⟨3, 2⟩ (by norm_num) (by norm_num)

/-- C2.  For any positive capacity, (a) every sequence of `extractFrame` calls
starting from the empty cache leaves at most `capacity` entries; (b) inserting
`capacity + 1` distinct keys into the empty cache leaves exactly the last
`capacity` of them in insertion order — the first-inserted key is the one
evicted; (c) a cache hit returns the map exactly as it was, so a re-requested
key is not moved to a fresher position (strict FIFO, not LRU). -/
theorem cache_capacity_fifo {V : Type} (c : Nat) (hc : 0 < c) :
    (∀ (E : Type) (ops : List (String × Except E V)),
      (ops.foldl (fun cache op => (extractFrameCache c cache op.1 op.2).1) []).length ≤ c) ∧
    (∀ (ks : List String) (v : String → V), ks.Nodup → ks.length = c + 1 →
      (ks.foldl (fun cc k => (extractFrameCache (E := Unit) c cc k (.ok (v k))).1) [])
        = (ks.drop 1).map (fun k => (k, v k))) ∧
    (∀ (E : Type) (cache : List (String × V)) (key : String) (r : Except E V),
      key ∈ cache.map Prod.fst → (extractFrameCache c cache key r).1 = cache) :=
  ⟨fun E ops => cache_fold_length c hc ops,
   fun ks v hnd hlen => cache_fifo_scenario c hc v ks hnd hlen,
   fun E cache key r hmem => cache_hit_unchanged c cache key r hmem⟩

/-- C2 (witness): at the default capacity 10, inserting the 11 distinct keys
`k0 … k10` leaves exactly `k1 … k10`; a bound and a hit check instantiated. -/
theorem cache_capacity_fifo_witness :
    (([("a", (.ok 1 : Except Unit Nat))].foldl
        (fun cache op => (extractFrameCache cacheSize cache op.1 op.2).1) []).length
      ≤ cacheSize) ∧
    ((["k0", "k1", "k2", "k3", "k4", "k5", "k6", "k7", "k8", "k9", "k10"].foldl
        (fun cc k => (extractFrameCache (E := Unit) cacheSize cc k (.ok ((fun _ => (0 : Nat)) k))).1) [])
      = (["k0", "k1", "k2", "k3", "k4", "k5", "k6", "k7", "k8", "k9", "k10"].drop 1).map
          (fun k => (k, (fun _ => (0 : Nat)) k))) ∧
    ((extractFrameCache (E := Unit) cacheSize [("a", (1 : Nat))] "a" (.error ())).1
      = [("a", (1 : Nat))]) :=
  ⟨(cache_capacity_fifo (V := Nat) cacheSize (by norm_num [cacheSize])).1
     Unit [("a", .ok 1)],
   (cache_capacity_fifo (V := Nat) cacheSize (by norm_num [cacheSize])).2.1
     ["k0", "k1", "k2", "k3", "k4", "k5", "k6", "k7", "k8", "k9", "k10"]
     (fun _ => 0) (by decide) (by decide),
   (cache_capacity_fifo (V := Nat) cacheSize (by norm_num [cacheSize])).2.2
     Unit [("a", (1 : Nat))] "a" (.error ()) (by decide)⟩

/-- C3 (counterexample).  A request at t = 11 on a loaded 10-second source does
fail with the invalid-time error, but the retry wrapper retries it like any
other failure: the concrete run makes 3 attempts, not 1, before surfacing the
error annotated with the attempt count. -/
theorem invalid_time_is_retried :
    extractFrameInternal (A := Nat) ⟨true, 4, 10⟩ 11 (.ok 0) = .error .invalidTime ∧
    extractFrameWithRetry (A := Nat) (fun _ => extractFrameInternal ⟨true, 4, 10⟩ 11 (.ok 0))
      (fun _ => true) 3 false
      = (.error (.retriesExhausted .invalidTime 3), 3) ∧ (3 : Nat) ≠ 1 := by
  have hint : extractFrameInternal (A := Nat) ⟨true, 4, 10⟩ 11 (.ok 0)
      = .error .invalidTime := by
    unfold extractFrameInternal
    norm_num
  refine ⟨hint, ?_, by norm_num⟩
  unfold extractFrameWithRetry
  rw [show (fun _ : Nat => extractFrameInternal (A := Nat) ⟨true, 4, 10⟩ 11 (.ok 0))
      = (fun _ : Nat => (.error .invalidTime : Except ExtractError Nat)) from
    funext fun _ => hint]
  have := retryAttempts_const_error (A := Nat) .invalidTime (actualMaxRetries 3 false)
    (actualMaxRetries 3 false) 1 .videoNotLoaded (by norm_num [actualMaxRetries])
    (by norm_num [actualMaxRetries])
  simpa [actualMaxRetries] using this

/-- C3 (amended).  On a loaded source (decodable data available) an
out-of-range timestamp makes `extractFrameInternal` fail with the invalid-time
error, but the error IS retried: `extractFrameWithRetry` makes the full
`actualMaxRetries` attempts (3, or 5 on mobile) — all failing the same way —
and then surfaces the last error annotated with the attempt count. -/
theorem invalid_time_retry_exhaustion (vs : VideoState) (time : ℚ)
    (seek : Except ExtractError Nat) (mobile : Bool)
    (hload : vs.loaded = true) (hready : 2 ≤ vs.readyState)
    (htime : time < 0 ∨ vs.duration < time) :
    extractFrameInternal vs time seek = .error .invalidTime ∧
    extractFrameWithRetry (fun _ => extractFrameInternal vs time seek) (fun _ => true) 3 mobile
      = (.error (.retriesExhausted .invalidTime (actualMaxRetries 3 mobile)),
          actualMaxRetries 3 mobile) := by
  have hint : extractFrameInternal vs time seek = .error .invalidTime := by
    unfold extractFrameInternal
    rw [if_neg (by simp [hload]), if_neg (by omega), if_neg (by omega), if_pos htime]
  refine ⟨hint, ?_⟩
  unfold extractFrameWithRetry
  rw [show (fun _ : Nat => extractFrameInternal vs time seek)
      = (fun _ : Nat => (.error .invalidTime : Except ExtractError Nat)) from
    funext fun _ => hint]
  have hmax : 1 ≤ actualMaxRetries 3 mobile := by
    unfold actualMaxRetries; cases mobile <;> simp
  exact retryAttempts_const_error .invalidTime (actualMaxRetries 3 mobile)
    (actualMaxRetries 3 mobile) 1 .videoNotLoaded (by omega) hmax

/-- C3 (witness for the amended theorem): the mobile run at t = -1 on a
5-second source exhausts all 5 attempts. -/
theorem invalid_time_retry_exhaustion_witness :
    extractFrameInternal (A := Nat) ⟨true, 4, 5⟩ (-1) (.ok 0) = .error .invalidTime ∧
    extractFrameWithRetry (A := Nat) (fun _ => extractFrameInternal ⟨true, 4, 5⟩ (-1) (.ok 0))
      (fun _ => true) 3 true
      = (.error (.retriesExhausted .invalidTime (actualMaxRetries 3 true)),
          actualMaxRetries 3 true) :=
  invalid_time_retry_exhaustion ⟨true, 4, 5⟩ (-1) (.ok 0) true rfl (by norm_num)
    (Or.inl (by norm_num))

/-- C4.  The latency window is bounded: a call keeps at most `maxSamples = 10`
entries, and at capacity the oldest sample is the one dropped; and the spec's
example holds exactly: feeding latencies [60,60,60,60,60] from an empty window
with settings {width 120, height 40} yields the adapted settings
{width 96, height 32} (mean 60 > 49.5, so ⌊120·0.8⌋ = 96 and ⌊40·0.8⌋ = 32). -/
theorem quality_window_and_example :
    (∀ (times : List ℚ) (t : ℚ) (s : QSettings), times.length ≤ 10 →
      ((adaptQuality times t s).1.length ≤ 10 ∧
        (times.length = 10 → (adaptQuality times t s).1 = times.drop 1 ++ [t]))) ∧
    feedLatencies [60, 60, 60, 60, 60] [] ⟨120, 40⟩ = ([60, 60, 60, 60, 60], ⟨96, 32⟩) := by
  constructor
  · intro times t s hlen
    constructor
    · unfold adaptQuality maxSamples
      by_cases h : 10 < (times ++ [t]).length
      · simp only [if_pos h]
        simp at h ⊢
        omega
      · simp only [if_neg h]
        simp at h ⊢
        omega
    · intro h10
      simp only [adaptQuality, maxSamples]
      rw [if_pos (by simp [h10])]
      rw [List.drop_append_of_le_length (by omega)]
  · norm_num [feedLatencies, adaptQuality, maxSamples, targetFrameTime]

/-- C4 (witness): pushing an 11-th sample onto a full 10-sample window keeps
10 samples and drops the oldest. -/
theorem quality_window_and_example_witness :
    (adaptQuality [1, 2, 3, 4, 5, 6, 7, 8, 9, 10] 11 ⟨100, 40⟩).1.length ≤ 10 ∧
      (([1, 2, 3, 4, 5, 6, 7, 8, 9, 10] : List ℚ).length = 10 →
        (adaptQuality [1, 2, 3, 4, 5, 6, 7, 8, 9, 10] 11 ⟨100, 40⟩).1
          = ([1, 2, 3, 4, 5, 6, 7, 8, 9, 10] : List ℚ).drop 1 ++ [11]) :=
  quality_window_and_example.1 [1, 2, 3, 4, 5, 6, 7, 8, 9, 10] 11 ⟨100, 40⟩ (by norm_num)

/-- C5 (counterexample).  For an input settings object outside the advertised
range the controller does NOT clamp into [60,200]×[20,80]: a single 60 ms
latency (mean 60 > 49.5) on settings {width 500, height 100} yields
{width 400, height 80}, and 400 > 200. -/
theorem quality_bounds_violated :
    (adaptQuality [] 60 ⟨500, 100⟩).2 = ⟨400, 80⟩ ∧ ¬((400 : Nat) ≤ 200) := by
  constructor
  · norm_num [adaptQuality, maxSamples, targetFrameTime]
  · omega

/-- C5 (amended).  Whenever the INPUT settings lie in the advertised range
(width in [60,200], height in [20,80]), the adapted settings remain in that
range, for every latency window and sample. -/
theorem quality_bounds_in_range (times : List ℚ) (t : ℚ) (s : QSettings)
    (hw1 : 60 ≤ s.asciiWidth) (hw2 : s.asciiWidth ≤ 200)
    (hh1 : 20 ≤ s.asciiHeight) (hh2 : s.asciiHeight ≤ 80) :
    60 ≤ (adaptQuality times t s).2.asciiWidth ∧
    (adaptQuality times t s).2.asciiWidth ≤ 200 ∧
    20 ≤ (adaptQuality times t s).2.asciiHeight ∧
    (adaptQuality times t s).2.asciiHeight ≤ 80 := by
  have hwu : s.asciiWidth * 8 / 10 ≤ 160 := by
    calc s.asciiWidth * 8 / 10 ≤ 200 * 8 / 10 :=
        Nat.div_le_div_right (Nat.mul_le_mul_right 8 hw2)
      _ = 160 := by norm_num
  have hhu : s.asciiHeight * 8 / 10 ≤ 64 := by
    calc s.asciiHeight * 8 / 10 ≤ 80 * 8 / 10 :=
        Nat.div_le_div_right (Nat.mul_le_mul_right 8 hh2)
      _ = 64 := by norm_num
  have hwl : 66 ≤ s.asciiWidth * 11 / 10 := by
    calc (66 : Nat) = 60 * 11 / 10 := by norm_num
      _ ≤ s.asciiWidth * 11 / 10 := Nat.div_le_div_right (Nat.mul_le_mul_right 11 hw1)
  have hhl : 22 ≤ s.asciiHeight * 11 / 10 := by
    calc (22 : Nat) = 20 * 11 / 10 := by norm_num
      _ ≤ s.asciiHeight * 11 / 10 := Nat.div_le_div_right (Nat.mul_le_mul_right 11 hh1)
  simp only [adaptQuality]
  split_ifs
  all_goals first
    | exact ⟨hw1, hw2, hh1, hh2⟩
    | exact ⟨le_max_left _ _, Nat.max_le.2 ⟨by norm_num, le_trans hwu (by norm_num)⟩,
        le_max_left _ _, Nat.max_le.2 ⟨by norm_num, le_trans hhu (by norm_num)⟩⟩
    | exact ⟨le_min (by norm_num) (le_trans (by norm_num) hwl), min_le_left _ _,
        le_min (by norm_num) (le_trans (by norm_num) hhl), min_le_left _ _⟩

/-- C5 (witness for the amended theorem): in-range settings {120, 40} stay in
range under a 60 ms latency sample. -/
theorem quality_bounds_in_range_witness :
    60 ≤ (adaptQuality [] 60 ⟨120, 40⟩).2.asciiWidth ∧
    (adaptQuality [] 60 ⟨120, 40⟩).2.asciiWidth ≤ 200 ∧
    20 ≤ (adaptQuality [] 60 ⟨120, 40⟩).2.asciiHeight ∧
    (adaptQuality [] 60 ⟨120, 40⟩).2.asciiHeight ≤ 80 :=
  quality_bounds_in_range [] 60 ⟨120, 40⟩ (by norm_num) (by norm_num) (by norm_num)
    (by norm_num)

/-- C6.  The luminance-to-glyph index `min(9, ⌊gray·9/255⌋)` over the fixed
10-glyph ramp is monotone: for block luminances `g1 ≤ g2` in [0, 255] the glyph
chosen for `g2` never has a strictly smaller ramp index than the one for
`g1`. -/
theorem glyph_index_monotone (g1 g2 : ℤ) (h0 : 0 ≤ g1) (h12 : g1 ≤ g2)
    (h255 : g2 ≤ 255) : charIndex g1 ≤ charIndex g2 := by
  unfold charIndex
  refine min_le_min le_rfl ?_
  rw [Int.fdiv_eq_ediv _ (by norm_num), Int.fdiv_eq_ediv _ (by norm_num)]
  exact Int.ediv_le_ediv (by norm_num) (mul_le_mul_of_nonneg_right h12 (by norm_num))

/-- C6 (witness): luminances 100 ≤ 200 in range map to indices 3 ≤ 7. -/
theorem glyph_index_monotone_witness :
    (0 : ℤ) ≤ 100 ∧ (100 : ℤ) ≤ 200 ∧ (200 : ℤ) ≤ 255 ∧ charIndex 100 ≤ charIndex 200 :=
  ⟨by norm_num, by norm_num, by norm_num,
   glyph_index_monotone 100 200 (by norm_num) (by norm_num) (by norm_num)⟩

/-- C7 (counterexample).  A 0-sized pixel buffer (width 0, hence 0 bytes of
data) does NOT always yield an empty frame: at source 0×2 with requested
output 2×2 the converter produces two empty lines joined by a newline — the
string "\n", which is not the empty frame. -/
theorem convert_zero_size_not_empty :
    convertToASCII ⟨0, 2, fun _ => 0⟩ ⟨2, 2⟩ = "\n" ∧
    (asciiLines ⟨0, 2, fun _ => 0⟩ ⟨2, 2⟩).length = 2 ∧ ¬(("\n" : String) = "") := by
  refine ⟨?_, ?_, by decide⟩
  · show String.intercalate "\n" _ = "\n"
    rw [show asciiLines ⟨0, 2, fun _ => 0⟩ ⟨2, 2⟩ = [[], []] by
      simp [asciiLines, scanStarts, scanStartsAux]]
    rfl
  · rw [show asciiLines ⟨0, 2, fun _ => 0⟩ ⟨2, 2⟩ = [[], []] by
      simp [asciiLines, scanStarts, scanStartsAux]]
    rfl

/-- C7 (amended).  `convertToASCII` is a total function with no out-of-bounds
reads: (a) its output depends only on the `4·w·h` bytes of the buffer — any two
data arrays agreeing on those indices give identical frames; (b) a buffer of
height 0 yields the empty frame; (c) a buffer of width 0 yields a frame whose
every line is empty (no glyphs) — but, per the counterexample, not the empty
frame itself. -/
theorem convert_total_and_inbounds :
    (∀ (w ht : Nat) (d1 d2 : Nat → Nat) (s : ConvSettings),
      (∀ i, i < 4 * w * ht → d1 i = d2 i) →
        convertToASCII ⟨w, ht, d1⟩ s = convertToASCII ⟨w, ht, d2⟩ s) ∧
    (∀ (w : Nat) (d : Nat → Nat) (s : ConvSettings), convertToASCII ⟨w, 0, d⟩ s = "") ∧
    (∀ (ht : Nat) (d : Nat → Nat) (s : ConvSettings),
      ∀ l ∈ asciiLines ⟨0, ht, d⟩ s, l = []) := by
  refine ⟨?_, ?_, ?_⟩
  · intro w ht d1 d2 s hagree
    unfold convertToASCII
    rw [asciiLines_congr w ht d1 d2 s hagree]
  · intro w d s
    have hz := scanStarts_bound_zero (max 1 (0 / s.asciiHeight))
      (Nat.lt_of_lt_of_le Nat.one_pos (Nat.le_max_left 1 _))
    rcases eq_or_ne s.asciiHeight 0 with h | h
    · simp only [convertToASCII, asciiLines, h, if_pos rfl, List.map_nil]
      rfl
    · simp only [convertToASCII, asciiLines, if_neg h, hz, List.map_nil]
      rfl
  · intro ht d s l hl
    have hz := scanStarts_bound_zero (max 1 (0 / s.asciiWidth))
      (Nat.lt_of_lt_of_le Nat.one_pos (Nat.le_max_left 1 _))
    rcases eq_or_ne s.asciiWidth 0 with h | h
    · simp only [asciiLines, h, if_pos rfl, List.map_nil, List.mem_map] at hl
      obtain ⟨y, -, rfl⟩ := hl
      simp
    · simp only [asciiLines, if_neg h, hz, List.map_nil, List.mem_map] at hl
      obtain ⟨y, -, rfl⟩ := hl
      rfl

/-- C7 (witness for the amended theorem): two buffers agreeing on the 4 bytes
of a 1×1 frame convert identically; a 3×0 buffer gives the empty frame; all
lines of a 0×3 buffer are empty. -/
theorem convert_total_and_inbounds_witness :
    convertToASCII ⟨1, 1, fun _ => 5⟩ ⟨1, 1⟩
      = convertToASCII ⟨1, 1, fun i => if i < 4 then 5 else 9⟩ ⟨1, 1⟩ ∧
    convertToASCII ⟨3, 0, fun _ => 0⟩ ⟨2, 2⟩ = "" ∧
    (∀ l ∈ asciiLines ⟨0, 3, fun _ => 0⟩ ⟨2, 2⟩, l = []) :=
  ⟨convert_total_and_inbounds.1 1 1 _ _ ⟨1, 1⟩
    (fun i hi => (if_pos (show i < 4 by omega)).symm),
   convert_total_and_inbounds.2.1 3 (fun _ => 0) ⟨2, 2⟩,
   convert_total_and_inbounds.2.2 3 (fun _ => 0) ⟨2, 2⟩⟩

/-- C8.  In precomputed playback, once the elapsed time reaches the end of the
frame list (`expectedFrame ≥ frames.length`) the render pass wraps
`currentFrame` back to 0, re-bases the clock, and restarts the audio; in the
concrete 3-frame run at fps 10, `getPlaybackInfo().currentFrame` is 2 at
t = 250 ms and wraps to 0 at t = 310 ms with the audio restarted. -/
theorem playback_loop_wrap :
    (∀ (frames : List String) (fps : ℚ) (s : RendState) (now : ℚ),
      (frames.length : ℤ) ≤ ⌊(now - s.startTime) / (1000 / fps)⌋ →
        renderStep frames fps s now = (⟨0, now⟩, true) ∧
        (getPlaybackInfo frames fps (renderStep frames fps s now).1 true).currentFrame = 0) ∧
    (renderStep ["a", "b", "c"] 10 ⟨0, 0⟩ 250 = (⟨2, 0⟩, false) ∧
     (getPlaybackInfo ["a", "b", "c"] 10 ⟨2, 0⟩ true).currentFrame = 2 ∧
     renderStep ["a", "b", "c"] 10 ⟨2, 0⟩ 310 = (⟨0, 310⟩, true) ∧
     (getPlaybackInfo ["a", "b", "c"] 10 ⟨0, 310⟩ true).currentFrame = 0) := by
  constructor
  · intro frames fps s now hend
    have hstep : renderStep frames fps s now = (⟨0, now⟩, true) := by
      unfold renderStep
      rw [if_pos hend]
    exact ⟨hstep, by rw [hstep]; rfl⟩
  · refine ⟨?_, by norm_num [getPlaybackInfo], ?_, by norm_num [getPlaybackInfo]⟩
    · norm_num [renderStep]
    · norm_num [renderStep]

/-- C8 (witness): a 1-frame list at fps 10 wraps at t = 100 ms. -/
theorem playback_loop_wrap_witness :
    renderStep ["x"] 10 ⟨0, 0⟩ 100 = (⟨0, 100⟩, true) ∧
    (getPlaybackInfo ["x"] 10 (renderStep ["x"] 10 ⟨0, 0⟩ 100).1 true).currentFrame = 0 :=
  playback_loop_wrap.1 ["x"] 10 ⟨0, 0⟩ 100 (by norm_num)

/-- C9.  The adaptive frame-extraction deadline computed by the sampler equals
the spec's formula: 10 s base plus 5 s scaled by `w·h/1,000,000`, capped at
30 s, and for mobile (constrained) devices that value times 1.5 capped at 45 s
(the code computes milliseconds; the spec formula is stated in seconds). -/
theorem timeout_matches_spec (w h : Nat) (m : Bool) :
    adaptiveTimeout w h m = 1000 * specTimeoutFormula w h m := by
  have key : (1000 : ℚ) * min 30 (10 + 5 * (((w : ℚ) * (h : ℚ)) / 1000000))
      = min 30000 (10000 + (w : ℚ) * (h : ℚ) / 1000000 * 5000) := by
    rw [mul_min_of_nonneg _ _ (by norm_num)]
    ring_nf
  cases m with
  | false =>
    simp only [adaptiveTimeout, specTimeoutFormula, Bool.false_eq_true, if_false]
    rw [← key]
  | true =>
    simp only [adaptiveTimeout, specTimeoutFormula, if_true]
    rw [mul_min_of_nonneg _ _ (by norm_num : (0 : ℚ) ≤ 1000)]
    have assoc : (1000 : ℚ) * (min 30 (10 + 5 * (((w : ℚ) * (h : ℚ)) / 1000000)) * (3 / 2))
        = (1000 * min 30 (10 + 5 * (((w : ℚ) * (h : ℚ)) / 1000000))) * (3 / 2) := by ring
    rw [assoc, key]
    norm_num

/-- C10.  A cache miss while the cache is at capacity evicts the oldest entry
BEFORE extraction is attempted; if extraction then fails, the call returns the
error with the oldest entry already gone and nothing added, leaving the cache
one entry smaller than before the call. -/
theorem cache_failed_miss {V E : Type} (c : Nat) (cache : List (String × V))
    (key : String) (e : E) (hmiss : key ∉ cache.map Prod.fst)
    (hfull : cache.length = c) :
    extractFrameCache c cache key (.error e) = (cache.drop 1, .error e) ∧
      (cache.drop 1).length = c - 1 := by
  have hfind : cache.find? (fun kv => kv.1 == key) = none := by
    rw [List.find?_eq_none]
    intro kv hkv
    simp only [beq_iff_eq]
    intro hk
    exact hmiss (List.mem_map.2 ⟨kv, hkv, hk⟩)
  constructor
  · unfold extractFrameCache
    rw [hfind, if_pos (by omega)]
  · simp [hfull]

/-- C10 (witness): a failing miss on a full 2-entry cache evicts the oldest
entry "a" and returns a 1-entry cache. -/
theorem cache_failed_miss_witness :
    extractFrameCache 2 [("a", (1 : Nat)), ("b", 2)] "c" (.error ())
      = ([("a", (1 : Nat)), ("b", 2)].drop 1, .error ()) ∧
    ([("a", (1 : Nat)), ("b", 2)].drop 1).length = 2 - 1 :=
  cache_failed_miss 2 [("a", (1 : Nat)), ("b", 2)] "c" () (by decide) (by decide)

end AsciiVideo
